import Mathlib

/- Verification of the zephyr-python repository against its natural-language
specification.  Each Python function relevant to the claims is shallow-embedded
as an executable Lean definition: bytes are Nat, buffers are List Nat, and code
that can raise an exception returns Option or Except. -/

namespace ZephyrPython

namespace Cobs

/- src/protorpc/protorpc/connection/cobs.py -/

/-- Models `max_overhead = round(len(bytes_in)/254 + 0.5)` from `encode`.
Python evaluates this in binary floating point with banker's rounding
(round-half-to-even).  For n = 254*k the quotient n/254 is the exact float k,
so `round(k + 0.5)` returns k when k is even and k+1 when k is odd; for
n = 254*k + 127 the quotient is exactly k + 0.5 and `round(k + 1.0) = k + 1`;
for every other remainder r in 1..253 the value k + r/254 + 0.5 lies strictly
between k + 0.5 and k + 1.5 (float rounding error is far too small to reach
either boundary), so `round` returns k + 1.  The three cases below reproduce
that behaviour exactly (checked against CPython for all n < 6000). -/
def maxOverhead (n : Nat) : Nat :=
  if n % 254 = 0 then (if (n / 254) % 2 = 0 then n / 254 else n / 254 + 1)
  else n / 254 + 1

/-- The encoder's mutable state.  In the Python code the output buffer
`enc_out` is written left to right except for the back-patched code word at
`code_word_idx`: every byte strictly before `code_word_idx` is final
(`finished`), position `code_word_idx` is the reserved code-word slot, and the
`count` bytes after it are the data bytes of the open block (`pending`).  The
data write `enc_out[code_word_idx + count] = byte` is exactly an append to
`pending`, and closing a block (`enc_out[code_word_idx] = count;
code_word_idx += count`) moves the code word and the pending bytes into
`finished`.  `count` mirrors the Python variable of the same name. -/
structure EncState where
  finished : List Nat
  pending : List Nat
  count : Nat
  deriving Repr, DecidableEq

/-- One iteration of the `for byte in bytes_in` loop of `encode`.  `bufLen` is
`len(enc_out) = max_overhead + len(bytes_in)`; a buffer write at an index
outside `enc_out` raises IndexError, modelled as `none`.  The write indices
are exactly the Python ones: the code word is written at `code_word_idx`
(length of `finished`), the 255-overflow branch then writes `byte` at
`code_word_idx + count + 1` relative to the old code word index, and the plain
data branch writes at `code_word_idx + count`. -/
def encStep (bufLen : Nat) (st : EncState) (b : Nat) : Option EncState :=
  let cwi := st.finished.length
  let c := st.count + 1
  if b = 0 ∨ c = 255 then
    if cwi < bufLen then
      if c = 255 then
        if cwi + c + 1 < bufLen then some ⟨st.finished ++ c :: st.pending, [b], 1⟩
        else none
      else some ⟨st.finished ++ c :: st.pending, [], 0⟩
    else none
  else
    if cwi + c < bufLen then some ⟨st.finished, st.pending ++ [b], c⟩
    else none

/-- The main loop of `encode`, threading the state through the input bytes. -/
def encLoop (bufLen : Nat) : EncState → List Nat → Option EncState
  | st, [] => some st
  | st, b :: t =>
    match encStep bufLen st b with
    | none => none
    | some st2 => encLoop bufLen st2 t

/-- Models `encode` from cobs.py.  After the loop, Python writes the final code word
`enc_out[code_word_idx] = count + 1` (IndexError -- hence `none` -- when
`code_word_idx` is outside the buffer, which happens for empty input where
`max_overhead` computes to 0) and returns `enc_out[:code_word_idx+count+1]`,
i.e. `finished ++ [count + 1] ++ pending`. -/
def encode (x : List Nat) : Option (List Nat) :=
  let bufLen := maxOverhead x.length + x.length
  match encLoop bufLen ⟨[], [], 0⟩ x with
  | none => none
  | some st =>
    if st.finished.length < bufLen then
      some (st.finished ++ (st.count + 1) :: st.pending)
    else none

/-- Models `decode` from cobs.py, one outer `while True` iteration per equation.  At
the top of each iteration `code_idx` points at the next code word and
`data_idx = code_idx + 1`, so the remaining input is `code :: t`.  The inner
loop copies `count - 1` bytes where `count` ends at `max code 1` (for
`code = 0` the loop body never runs and `count` stays 1); reading past the end
of the input raises IndexError (`none`).  `code_idx += count` then lands
directly after the copied bytes, so the remaining input is `t.drop copied`;
the loop breaks when `code_idx == len` (remainder empty), `continue`s without
the implied zero when `count == 255`, and otherwise appends the escaped zero.
The output buffer `dec_out` has `len(encbytes_in)` cells and cannot overflow:
every iteration consumes `count` input bytes and produces at most `count`
output bytes (`count - 1` copies plus at most one zero). -/
def decodeGo : List Nat → Option (List Nat)
  | [] => none
  | code :: t =>
    let count := max code 1
    let copied := count - 1
    if copied ≤ t.length then
      let rest := t.drop copied
      if rest.isEmpty then some (t.take copied)
      else if count = 255 then (decodeGo rest).map (fun d => t.take copied ++ d)
      else (decodeGo rest).map (fun d => t.take copied ++ 0 :: d)
    else none
termination_by l => l.length
decreasing_by
  simp only [List.length_drop, List.length_cons]
  omega
  simp only [List.length_drop, List.length_cons]
  omega

/-- Models `decode` from cobs.py.  On empty input the first `encbytes_in[code_idx]`
read raises IndexError, hence `decodeGo [] = none`. -/
def decode (enc : List Nat) : Option (List Nat) := decodeGo enc

/-- Functional view of the encoder continuation: the bytes `encode` will still
emit given that the open block currently holds the data bytes `pending`
(`count = pending.length`) and the input bytes `xs` remain.  Derived from
`encStep`/`encLoop` by erasing the already-final prefix and the buffer-bound
checks; `encLoop_spec` proves the correspondence. -/
def encCont : List Nat → List Nat → List Nat
  | pending, [] => (pending.length + 1) :: pending
  | pending, b :: t =>
    if b = 0 ∨ pending.length + 1 = 255 then
      if pending.length + 1 = 255 then 255 :: (pending ++ encCont [b] t)
      else (pending.length + 1) :: (pending ++ encCont [] t)
    else encCont (pending ++ [b]) t

lemma encCont_ne_nil : ∀ (xs pending : List Nat), encCont pending xs ≠ [] := by
  intro xs
  induction xs with
  | nil => intro pending; simp [encCont]
  | cons b t ih =>
    intro pending
    rw [encCont]
    split
    · split
      · simp
      · simp
    · exact ih (pending ++ [b])

lemma decodeGo_final (d : List Nat) : decodeGo ((d.length + 1) :: d) = some d := by
  rw [decodeGo]
  have hmax : max (d.length + 1) 1 = d.length + 1 := by omega
  simp [hmax]

lemma decodeGo_mid (d rest : List Nat) (h254 : d.length + 1 ≤ 254) (hrest : rest ≠ []) :
    decodeGo ((d.length + 1) :: (d ++ rest)) =
      (decodeGo rest).map (fun r => d ++ 0 :: r) := by
  rw [decodeGo]
  have hmax : max (d.length + 1) 1 = d.length + 1 := by omega
  have h255 : ¬(d.length + 1 = 255) := by omega
  simp [hmax, List.take_left, List.drop_left, h255, hrest]

lemma decodeGo_255 (d rest : List Nat) (hd : d.length = 254) (hrest : rest ≠ []) :
    decodeGo (255 :: (d ++ rest)) = (decodeGo rest).map (fun r => d ++ r) := by
  rw [decodeGo]
  have htake : (d ++ rest).take 254 = d := by rw [← hd]; exact List.take_left d rest
  have hdrop : (d ++ rest).drop 254 = rest := by rw [← hd]; exact List.drop_left d rest
  simp [htake, hdrop, hd, hrest]

/-- Decoding the remaining encoder output for an open block with data bytes
`pending` and remaining input `xs` recovers `pending ++ xs`. -/
lemma decodeGo_encCont : ∀ (xs pending : List Nat), pending.length ≤ 254 →
    decodeGo (encCont pending xs) = some (pending ++ xs) := by
  intro xs
  induction xs with
  | nil =>
    intro p hp
    rw [encCont]
    simpa using decodeGo_final p
  | cons b t ih =>
    intro p hp
    rw [encCont]
    by_cases h255 : p.length + 1 = 255
    · rw [if_pos (Or.inr h255), if_pos h255]
      have hd : p.length = 254 := by omega
      rw [decodeGo_255 p _ hd (encCont_ne_nil t [b])]
      rw [ih [b] (by simp)]
      simp
    · by_cases hb : b = 0
      · rw [if_pos (Or.inl hb), if_neg h255]
        rw [decodeGo_mid p _ (by omega) (encCont_ne_nil t [])]
        rw [ih [] (by simp)]
        simp [hb]
      · rw [if_neg (by tauto)]
        rw [ih (p ++ [b]) (by simp; omega)]
        simp

/-- The invariant tying the encoder state after `i` consumed input bytes and
`f` occurrences of the 255-byte overflow branch to the buffer geometry.  The
last conjunct records that each overflow is preceded by at least 254 further
input bytes, which bounds the total overhead. -/
def EncInv (i f : Nat) (st : EncState) : Prop :=
  st.count = st.pending.length ∧
  st.pending.length ≤ 254 ∧
  st.finished.length + st.pending.length = i + f ∧
  254 * f + st.pending.length ≤ i ∧
  (f = 0 ∨ 1 ≤ st.pending.length ∨ 254 * f + st.pending.length + 1 ≤ i)

lemma maxOverhead_pos (n : Nat) (hn : 1 ≤ n) : 1 ≤ maxOverhead n := by
  unfold maxOverhead; split_ifs <;> omega

lemma lt_maxOverhead (n g : Nat) (h : 254 * g + 1 ≤ n) : g < maxOverhead n := by
  unfold maxOverhead; split_ifs <;> omega

lemma encStep_data (bufLen : Nat) (st : EncState) (b : Nat)
    (hb : ¬(b = 0 ∨ st.count + 1 = 255))
    (hlt : st.finished.length + (st.count + 1) < bufLen) :
    encStep bufLen st b = some ⟨st.finished, st.pending ++ [b], st.count + 1⟩ := by
  simp only [encStep]
  rw [if_neg hb, if_pos hlt]

lemma encStep_boundary (bufLen : Nat) (st : EncState) (b : Nat)
    (hb : b = 0 ∨ st.count + 1 = 255) (h255 : ¬(st.count + 1 = 255))
    (hlt : st.finished.length < bufLen) :
    encStep bufLen st b = some ⟨st.finished ++ (st.count + 1) :: st.pending, [], 0⟩ := by
  simp only [encStep]
  rw [if_pos hb, if_pos hlt, if_neg h255]

lemma encStep_full (bufLen : Nat) (st : EncState) (b : Nat)
    (h255 : st.count + 1 = 255) (hlt : st.finished.length < bufLen)
    (hlt2 : st.finished.length + (st.count + 1) + 1 < bufLen) :
    encStep bufLen st b = some ⟨st.finished ++ (st.count + 1) :: st.pending, [b], 1⟩ := by
  simp only [encStep]
  rw [if_pos (Or.inr h255), if_pos hlt, if_pos h255, if_pos hlt2]

/-- Main loop correctness: from any state satisfying the invariant the loop
completes without an out-of-bounds write and its final buffer contents agree
with the functional continuation `encCont`. -/
lemma encLoop_spec (n : Nat) (hn : 1 ≤ n) :
    ∀ (xs : List Nat) (i f : Nat) (st : EncState), EncInv i f st →
      i + xs.length = n →
      ∃ st2 f2, encLoop (maxOverhead n + n) st xs = some st2 ∧ EncInv n f2 st2 ∧
        st2.finished ++ (st2.count + 1) :: st2.pending =
          st.finished ++ encCont st.pending xs := by
  intro xs
  induction xs with
  | nil =>
    intro i f st hInv hlen
    refine ⟨st, f, rfl, ?_, ?_⟩
    · have : i = n := by simpa using hlen
      rwa [this] at hInv
    · rw [encCont, hInv.1]
  | cons b t ih =>
    intro i f st hInv hlen
    obtain ⟨hc, hp254, hsum, hineq, hdisj⟩ := hInv
    have hin : i < n := by simp at hlen; omega
    have hfmo : f < maxOverhead n := by
      rcases hdisj with h | h | h
      · have := maxOverhead_pos n hn; omega
      · exact lt_maxOverhead n f (by omega)
      · exact lt_maxOverhead n f (by omega)
    rw [encLoop]
    by_cases h255 : st.count + 1 = 255
    · -- overflow branch: 255 bytes since the last code word
      have hplen : st.pending.length = 254 := by omega
      have hfmo2 : f + 1 < maxOverhead n := lt_maxOverhead n (f + 1) (by omega)
      rw [encStep_full _ st b h255 (by omega) (by omega)]
      obtain ⟨st2, f2, hloop, hInv2, hout⟩ :=
        ih (i + 1) (f + 1) ⟨st.finished ++ (st.count + 1) :: st.pending, [b], 1⟩
          (by refine ⟨rfl, by simp, by simp; omega, by simp; omega, Or.inr (Or.inl (by simp))⟩)
          (by simp at hlen ⊢; omega)
      refine ⟨st2, f2, hloop, hInv2, ?_⟩
      have hcond : st.pending.length + 1 = 255 := by omega
      rw [hout, h255, encCont, if_pos (Or.inr hcond), if_pos hcond]
      simp [List.append_assoc]
    · by_cases hb : b = 0 ∨ st.count + 1 = 255
      · -- block boundary: the current byte is the escaped zero
        rw [encStep_boundary _ st b hb h255 (by omega)]
        obtain ⟨st2, f2, hloop, hInv2, hout⟩ :=
          ih (i + 1) f ⟨st.finished ++ (st.count + 1) :: st.pending, [], 0⟩
            (by refine ⟨rfl, by simp, by simp; omega, by simp; omega,
                  Or.inr (Or.inr (by simp; omega))⟩)
            (by simp at hlen ⊢; omega)
        refine ⟨st2, f2, hloop, hInv2, ?_⟩
        have hb0 : b = 0 := by tauto
        have hcond : ¬(st.pending.length + 1 = 255) := by omega
        rw [hout, hc, encCont, if_pos (Or.inl hb0), if_neg hcond]
        simp [List.append_assoc]
      · -- plain data byte
        rw [encStep_data _ st b hb (by omega)]
        obtain ⟨st2, f2, hloop, hInv2, hout⟩ :=
          ih (i + 1) f ⟨st.finished, st.pending ++ [b], st.count + 1⟩
            (by refine ⟨by simp [hc], by simp; omega, by simp; omega, by simp; omega, ?_⟩
                rcases hdisj with h | h | h
                · exact Or.inl h
                · exact Or.inr (Or.inl (by simp))
                · exact Or.inr (Or.inl (by simp)))
            (by simp at hlen ⊢; omega)
        refine ⟨st2, f2, hloop, hInv2, ?_⟩
        have hcond : ¬(b = 0 ∨ st.pending.length + 1 = 255) := by
          rw [← hc]; exact hb
        rw [hout, encCont, if_neg hcond]

theorem encode_eq_encCont (x : List Nat) (hx : 1 ≤ x.length) :
    encode x = some (encCont [] x) := by
  obtain ⟨st2, f2, hloop, hInv2, hout⟩ :=
    encLoop_spec x.length hx x 0 0 ⟨[], [], 0⟩
      ⟨rfl, by simp, by simp, by simp, Or.inl rfl⟩ (by simp)
  obtain ⟨hc, hp254, hsum, hineq, hdisj⟩ := hInv2
  have hfin : st2.finished.length < maxOverhead x.length + x.length := by
    rcases hdisj with h | h | h
    · have := maxOverhead_pos x.length hx; omega
    · have := lt_maxOverhead x.length f2 (by omega); omega
    · have := lt_maxOverhead x.length f2 (by omega); omega
  simp only [encode]
  rw [hloop]
  dsimp only
  rw [if_pos hfin, hout]
  simp

lemma encode_nil : encode ([] : List Nat) = none := rfl

lemma encode_some_decode (x e : List Nat) (h : encode x = some e) :
    decode e = some x := by
  match x with
  | [] => rw [encode_nil] at h; exact absurd h (by simp)
  | a :: t =>
    rw [encode_eq_encCont (a :: t) (by simp)] at h
    have he : encCont [] (a :: t) = e := Option.some.inj h
    rw [decode, ← he]
    simpa using decodeGo_encCont (a :: t) [] (by simp)

/-- C1 (amended): for every byte sequence of length 1 to 2048 the COBS round
trip `decode (encode x) = x` succeeds.  The original claim also covered the
empty sequence, but `encode []` raises IndexError (see the counterexample):
`max_overhead = round(0/254 + 0.5)` is 0 under Python's banker's rounding, so
`enc_out` is empty and the final code-word write `enc_out[0] = count + 1` is
out of bounds. -/
theorem cobs_roundtrip_c1 (x : List Nat) (h1 : 1 ≤ x.length) (h2 : x.length ≤ 2048) :
    ∃ e, encode x = some e ∧ decode e = some x :=
  ⟨encCont [] x, encode_eq_encCont x h1,
    encode_some_decode x _ (encode_eq_encCont x h1)⟩

theorem cobs_roundtrip_c1_witness :
    ∃ e, encode [0] = some e ∧ decode e = some [0] :=
  cobs_roundtrip_c1 [0] (by decide) (by decide)

/-- C1 counterexample: on the empty input (a sequence of length 0, listed as
a covered vector by the claim) `encode` does not return normally: the
zero-length output buffer makes the final code-word write raise IndexError,
modelled as `none`. -/
theorem cobs_roundtrip_c1_cex : encode ([] : List Nat) = none := encode_nil

def c2Input : List Nat := List.replicate 254 1 ++ [0]

def c2Output : List Nat := 255 :: (List.replicate 254 1 ++ [2, 0])

set_option maxRecDepth 8192

/-- C2 is violated by the code: for the non-empty input of 254 ones followed
by a zero, `count` reaches 255 exactly on the zero byte, so `encode` takes the
`count == 255` branch and writes the zero byte itself into the output
(`enc_out[wr_idx] = byte` with `byte == 0`).  The encoded frame therefore
contains a zero byte and cannot be delimited unambiguously by zero bytes. -/
theorem cobs_zero_free_c2_bug :
    encode c2Input = some c2Output ∧ (0 : Nat) ∈ c2Output := by
  constructor
  · decide
  · simp [c2Output]

/- Deframer (cobs.py).  Every return path of `Deframer.process` first sets
`self.state = "INIT"` and the INIT state clears `self.data` and `self.count`,
so between calls the only persistent state is the byte queue `self.q`.  One
call appends the new bytes to the queue and then runs the state machine once:
INIT -> FIND_SOF (drop bytes through the first zero; if the queue runs out,
return None) -> FIND_EOF (collect bytes up to the next zero; if the queue is
or runs empty, return None and discard the collected bytes) -> DECODE
(return `decode(data)`, leaving the unconsumed bytes queued). -/

/-- FIND_SOF: pops bytes until a zero is found, returning the remaining queue,
or `none` when the queue empties first (process returns None with an empty
queue). -/
def findSof : List Nat → Option (List Nat)
  | [] => none
  | b :: t => if b = 0 then some t else findSof t

/-- FIND_EOF's inner loop: collects non-zero bytes into `data` until the next
zero, returning `(data, rest)`, or `none` when the queue empties first. -/
def findEof : List Nat → Option (List Nat × List Nat)
  | [] => none
  | b :: t =>
    if b = 0 then some ([], t)
    else (findEof t).map (fun p => (b :: p.1, p.2))

/-- Models `Deframer.process`: `q` is the queue contents left from previous calls,
`new` the newly arriving bytes.  Returns (message?, queue after the call);
the message slot is `some (decode data)` when a complete frame was found
(`decode` itself may fail, hence the nested Option). -/
def deframerProcess (q new : List Nat) : Option (Option (List Nat)) × List Nat :=
  let q2 := q ++ new
  match findSof q2 with
  | none => (none, [])
  | some afterSof =>
    if afterSof.isEmpty then (none, [])
    else
      match findEof afterSof with
      | none => (none, [])
      | some (data, rest) => (some (decode data), rest)

lemma findEof_no_zero (e : List Nat) (h : (0 : Nat) ∉ e) :
    findEof (e ++ [0]) = some (e, []) := by
  induction e with
  | nil => simp [findEof]
  | cons a t ih =>
    have ha : ¬(a = 0) := by intro h0; exact h (by simp [h0])
    have ht : (0 : Nat) ∉ t := fun h0 => h (by simp [h0])
    simp [findEof, ha, ih ht]

/-- C3 (amended): when the whole framed byte sequence `[0] ++ encode payload
++ [0]` arrives in a single `process` call on a fresh deframer, and the
encoding is zero-free, exactly one message equal to the payload is produced
and the deframer is left ready (INIT state, empty queue).  The original
claim's quantification over arbitrary chunkings fails: every return path
resets the state machine to INIT and discards partial frame data, so a chunk
boundary inside the frame loses it (see the counterexample). -/
theorem deframer_single_frame_c3 (x e : List Nat) (henc : encode x = some e)
    (hz : (0 : Nat) ∉ e) :
    deframerProcess [] (0 :: (e ++ [0])) = (some (some x), []) := by
  have hdec : decode e = some x := encode_some_decode x e henc
  have h1 : findSof (0 :: (e ++ [0])) = some (e ++ [0]) := by rw [findSof]; simp
  have hemp : (e ++ [0]).isEmpty = false := by simp
  simp [deframerProcess, h1, hemp, findEof_no_zero e hz, hdec]

theorem deframer_single_frame_c3_witness :
    deframerProcess [] (0 :: ([2, 1] ++ [0])) = (some (some [1]), []) :=
  deframer_single_frame_c3 [1] [2, 1] (by decide) (by decide)

/-- C3 counterexample: the payload `[1]` encodes to `[2, 1]`, so the framed
bytes are `[0, 2, 1, 0]`.  Splitting them into the chunks `[0, 2]` and
`[1, 0]` and feeding them in two consecutive `process` calls on a fresh
deframer yields no message at all (the first call discards the partial frame,
the second call treats `1` as pre-frame noise and stops at the start-of-frame
zero), contradicting the claimed "exactly one decoded message equal to
payload" for every partition into chunks. -/
theorem deframer_single_frame_c3_cex :
    encode [1] = some [2, 1] ∧
    deframerProcess [] [0, 2] = (none, []) ∧
    deframerProcess (deframerProcess [] [0, 2]).2 [1, 0] = (none, []) := by
  refine ⟨by decide, rfl, rfl⟩

end Cobs

namespace Api

/- src/protorpc/protorpc/api.py -/

/-- Python's `str.rstrip(chars)`: removes trailing characters that are
members of the character set `chars` (not the trailing substring `chars`). -/
def pyRstrip (s chars : List Char) : List Char :=
  (s.reverse.dropWhile (fun c => c ∈ chars)).reverse

/-- The name given to the synthesized call method in `call_factory`:
`call_func.__name__ = msg_name.rstrip("_call")`. -/
def callFuncName (msgName : List Char) : List Char :=
  pyRstrip msgName ("_call".toList)

/-- Python's `str.endswith(suffix)`, the guard used in `Api.__init__`
(`if not msg.endswith("_call"): continue`). -/
def pyEndsWith (s sfx : List Char) : Bool :=
  sfx.isSuffixOf s

/-- C4 fails on the code: for the callset message field name `recall_call`,
which ends in `_call` and so gets a synthesized call method, the method name
is computed with `rstrip("_call")`.  `rstrip` strips the trailing character
set `{'_', 'c', 'a', 'l'}` rather than the 5-character suffix, so the method
is named `re`, not `recall` as the claim (and the spec's "suffix stripped")
requires. -/
theorem api_call_name_c4_bug :
    pyEndsWith ("recall_call".toList) ("_call".toList) = true ∧
    callFuncName ("recall_call".toList) = "re".toList ∧
    callFuncName ("recall_call".toList) ≠ "recall".toList := by
  refine ⟨by decide, by decide, by decide⟩

/-- The reply value extracted by `get_reply_value` is abstracted as a Nat;
only which fields `rcv_handler` assigns matters for the claim. -/
structure Reply where
  success : Bool
  result : Option Nat
  deriving Repr, DecidableEq

/-- A freshly constructed `Reply`: `self.result = None; self.success = False`. -/
def freshReply : Reply := ⟨false, none⟩

/-- The status-dependent tail of `Reply.rcv_handler` after a successful
callset parse: `if self.status in [0, 3]: self.success = True if self.status
== 0 else False; self.result = self.get_reply_value()`.  `status` is the
header status field and `replyValue` the active oneof member's value that
`get_reply_value` would return. -/
def rcvHandlerStatus (status replyValue : Nat) (r : Reply) : Reply :=
  if status = 0 ∨ status = 3 then
    { r with success := status == 0, result := some replyValue }
  else r

/-- C6: after a successful parse, status 0 sets success and extracts the
result; status 3 (BAD_HANDLER_LOOKUP) leaves success false yet still extracts
and sets the result; any other status modifies neither field (so on a fresh
reply success stays false and result stays unset). -/
theorem reply_status_c6 (status v : Nat) (r : Reply) :
    (status = 0 →
      rcvHandlerStatus status v r = { r with success := true, result := some v }) ∧
    (status = 3 →
      rcvHandlerStatus status v r = { r with success := false, result := some v }) ∧
    (status ≠ 0 → status ≠ 3 → rcvHandlerStatus status v r = r) := by
  refine ⟨fun h0 => ?_, fun h3 => ?_, fun hn0 hn3 => ?_⟩
  · simp [rcvHandlerStatus, h0]
  · simp [rcvHandlerStatus, h3]
  · simp [rcvHandlerStatus, hn0, hn3]

theorem reply_status_c6_witness :
    rcvHandlerStatus 3 7 freshReply = { freshReply with success := false, result := some 7 } ∧
    rcvHandlerStatus 4 7 freshReply = freshReply :=
  ⟨(reply_status_c6 3 7 freshReply).2.1 rfl,
   (reply_status_c6 4 7 freshReply).2.2 (by decide) (by decide)⟩

end Api

namespace Connection

/- src/protorpc/protorpc/connection/__init__.py -/

/-- The `BaseConnection` pending-request storage is the single attribute
`self.pending_request`, initialised to `None`; `Req` abstracts the Request
object stored there. -/
structure BaseConnection (Req : Type) where
  pendingRequest : Option Req

/-- Models `add_pending`: `self.pending_request = request`. -/
def addPending {Req : Type} (conn : BaseConnection Req) (request : Req) :
    BaseConnection Req :=
  { pendingRequest := some request }

/-- Models `remove_pending`: `self.pending_request = None`, ignoring its `seqn`
argument entirely. -/
def removePending {Req : Type} (conn : BaseConnection Req) (seqn : Nat) :
    BaseConnection Req :=
  { pendingRequest := none }

/-- The operations that touch the pending slot. -/
inductive ConnOp (Req : Type) where
  | add (request : Req)
  | remove (seqn : Nat)

def applyOp {Req : Type} (conn : BaseConnection Req) : ConnOp Req → BaseConnection Req
  | .add r => addPending conn r
  | .remove s => removePending conn s

/-- Number of requests pending on the connection. -/
def numPending {Req : Type} (conn : BaseConnection Req) : Nat :=
  match conn.pendingRequest with
  | some _ => 1
  | none => 0

/-- C7: `add_pending` makes its argument the sole pending request
(overwriting whatever was there), `remove_pending` always clears the slot
regardless of whether the sequence number matches, and no sequence of these
operations ever yields more than one pending request. -/
theorem single_pending_c7 {Req : Type} (conn : BaseConnection Req)
    (request : Req) (seqn : Nat) (ops : List (ConnOp Req)) :
    (addPending conn request).pendingRequest = some request ∧
    (removePending conn seqn).pendingRequest = none ∧
    numPending (ops.foldl applyOp conn) ≤ 1 := by
  refine ⟨rfl, rfl, ?_⟩
  cases h : (ops.foldl applyOp conn).pendingRequest <;> simp [numPending, h]

end Connection

namespace SystemRpc

/- src/systemrpc/systemrpc/__init__.py -/

def MAX_READ_CHUNK_SIZE : Nat := 1000

/-- Models `SystemRpc.get_memory`.  `dumpMem addr size` abstracts the underlying
`dump_mem` RPC call; the first component of the result lists the (address,
size) of each issued `dump_mem` call in order, and the second is the
concatenation of their results, mirroring `bytes_read += read`.  The code
computes `num_chunks = size // MAX_READ_CHUNK_SIZE` and `leftover = size %
MAX_READ_CHUNK_SIZE`, issues one whole-chunk read per chunk advancing the
address, and then always issues the final leftover read -- there is no guard
skipping it when `leftover == 0`. -/
def getMemory (dumpMem : Nat → Nat → List Nat) (baseAddr size : Nat) :
    List (Nat × Nat) × List Nat :=
  let numChunks := size / MAX_READ_CHUNK_SIZE
  let leftover := size % MAX_READ_CHUNK_SIZE
  let calls :=
    ((List.range numChunks).map
      (fun k => (baseAddr + k * MAX_READ_CHUNK_SIZE, MAX_READ_CHUNK_SIZE))) ++
      [(baseAddr + numChunks * MAX_READ_CHUNK_SIZE, leftover)]
  (calls, calls.foldl (fun acc c => acc ++ dumpMem c.1 c.2) [])

/-- C5 (amended): `get_memory(base, 2500)` issues exactly the three reads
(base, 1000), (base+1000, 1000), (base+2000, 500) and concatenates their
results in order, as claimed; but `get_memory(base, 1000)` issues two reads,
(base, 1000) followed by a zero-length remainder read at base+1000 -- the
remainder read is always issued, even when the remainder is zero, contrary to
the claim's "final remainder read skipped". -/
theorem get_memory_chunks_c5 (dumpMem : Nat → Nat → List Nat) (base : Nat) :
    (getMemory dumpMem base 2500).1 =
      [(base, 1000), (base + 1000, 1000), (base + 2000, 500)] ∧
    (getMemory dumpMem base 2500).2 =
      dumpMem base 1000 ++ dumpMem (base + 1000) 1000 ++ dumpMem (base + 2000) 500 ∧
    (getMemory dumpMem base 1000).1 = [(base, 1000), (base + 1000, 0)] ∧
    (getMemory dumpMem base 1000).2 = dumpMem base 1000 ++ dumpMem (base + 1000) 0 := by
  have h2 : List.range 2 = [0, 1] := by decide
  have h1 : List.range 1 = [0] := by decide
  refine ⟨?_, ?_, ?_, ?_⟩ <;>
    simp [getMemory, MAX_READ_CHUNK_SIZE, h1, h2, Nat.mul_comm]

/-- C5 counterexample: with any backing read function, `get_memory(0, 1000)`
issues 2 underlying reads, not exactly 1 as claimed -- the second is the
unconditional zero-length remainder read at address 1000. -/
theorem get_memory_chunks_c5_cex :
    ((getMemory (fun _ s => List.replicate s 0) 0 1000).1).length = 2 ∧
    (getMemory (fun _ s => List.replicate s 0) 0 1000).1 = [(0, 1000), (1000, 0)] := by
  refine ⟨by decide, by decide⟩

end SystemRpc

namespace Trace

/- src/trace_tool/trace_tool/ctf_config.py and ctf_parser.py -/

/-- Models `EventFrame.get_hdr_size() = struct.calcsize("<IB") = 5` (little-endian
uint32 timestamp + uint8 event id, no padding). -/
def hdrSize : Nat := 5

/-- The `core_events` table of ctf_config.py mapped to each event class's
payload size `struct.calcsize(fmt)` with `<` (no padding): uint32/int32 = 4,
uint16 = 2, uint8/int8 = 1, `20s` = 20, `46s` = 46; `fmt = None` events have
size 0.  Ids 0x1F and 0x20 map to `None` in the table and therefore fail the
`self.events.get(self.id)` lookup exactly like missing ids. -/
def eventSize : Nat → Option Nat
  | 0x10 => some 24  -- thread_switched_out: I + 20s
  | 0x11 => some 24  -- thread_switched_in
  | 0x12 => some 25  -- thread_priority_set: I + 20s + b
  | 0x13 => some 24  -- thread_create
  | 0x14 => some 24  -- thread_abort
  | 0x15 => some 24  -- thread_suspend
  | 0x16 => some 24  -- thread_resume
  | 0x17 => some 24  -- thread_ready
  | 0x18 => some 24  -- thread_pending
  | 0x19 => some 32  -- thread_info: I + 20s + I + I
  | 0x1A => some 24  -- thread_name_set
  | 0x1B => some 0   -- isr_enter (fmt None)
  | 0x1C => some 0   -- isr_exit (fmt None)
  | 0x1D => some 0   -- isr_exit_to_scheduler (fmt None)
  | 0x1E => some 0   -- idle (fmt None)
  | 0x21 => some 8   -- semaphore_init: I + i
  | 0x22 => some 4   -- semaphore_give_enter
  | 0x23 => some 4   -- semaphore_give_exit
  | 0x24 => some 8   -- semaphore_take_enter
  | 0x25 => some 8   -- semaphore_take_blocking
  | 0x26 => some 12  -- semaphore_take_exit
  | 0x27 => some 4   -- semaphore_reset
  | 0x28 => some 8   -- mutex_init
  | 0x29 => some 8   -- mutex_lock_enter
  | 0x2A => some 8   -- mutex_lock_blocking
  | 0x2B => some 12  -- mutex_lock_exit
  | 0x2C => some 4   -- mutex_unlock_enter
  | 0x2D => some 4   -- mutex_unlock_exit
  | 0x2E => some 4   -- timer_init
  | 0x2F => some 12  -- timer_start
  | 0x30 => some 4   -- timer_stop
  | 0x31 => some 4   -- timer_status_sync_enter
  | 0x32 => some 4   -- timer_status_sync_blocking
  | 0x33 => some 8   -- timer_status_sync_exit
  | 0x34 => some 24  -- user_mode_enter
  | 0x35 => some 24  -- thread_wakeup
  | 0x36 => some 16  -- socket_init
  | 0x37 => some 4   -- socket_close_enter
  | 0x38 => some 4   -- socket_close_exit
  | 0x39 => some 8   -- socket_shutdown_enter
  | 0x3A => some 8   -- socket_shutdown_exit
  | 0x3B => some 56  -- socket_bind_enter: I + 46s + I + H
  | 0x3C => some 8   -- socket_bind_exit
  | 0x3D => some 54  -- socket_connect_enter: I + 46s + I
  | 0x3E => some 8   -- socket_connect_exit
  | 0x3F => some 8   -- socket_listen_enter
  | 0x40 => some 8   -- socket_listen_exit
  | 0x41 => some 4   -- socket_accept_enter
  | 0x42 => some 60  -- socket_accept_exit: I + 46s + I + H + i
  | 0x43 => some 62  -- socket_sendto_enter: I + I + I + 46s + I
  | 0x44 => some 8   -- socket_sendto_exit
  | 0x45 => some 62  -- socket_sendmsg_enter
  | 0x46 => some 8   -- socket_sendmsg_exit
  | 0x47 => some 20  -- socket_recvfrom_enter: 5 x I
  | 0x48 => some 58  -- socket_recvfrom_exit: I + 46s + I + i
  | 0x49 => some 16  -- socket_recvmsg_enter
  | 0x4A => some 58  -- socket_recvmsg_exit
  | 0x4B => some 12  -- socket_fcntl_enter
  | 0x4C => some 8   -- socket_fcntl_exit
  | 0x4D => some 8   -- socket_ioctl_enter
  | 0x4E => some 8   -- socket_ioctl_exit
  | 0x4F => some 12  -- socket_poll_enter
  | 0x50 => some 6   -- socket_poll_value: i + H
  | 0x51 => some 12  -- socket_poll_exit
  | 0x52 => some 12  -- socket_getsockopt_enter
  | 0x53 => some 24  -- socket_getsockopt_exit: 5 x I + i
  | 0x54 => some 20  -- socket_setsockopt_enter
  | 0x55 => some 8   -- socket_setsockopt_exit
  | 0x56 => some 4   -- socket_getpeername_enter
  | 0x57 => some 58  -- socket_getpeername_exit
  | 0x58 => some 4   -- socket_getsockname_enter
  | 0x59 => some 58  -- socket_getsockname_exit
  | 0x5A => some 16  -- socket_socketpair_enter
  | 0x5B => some 12  -- socket_socketpair_exit: i + i + i
  | 0x5C => some 16  -- net_recv_data_enter
  | 0x5D => some 16  -- net_recv_data_exit
  | 0x5E => some 16  -- net_send_data_enter
  | 0x5F => some 16  -- net_send_data_exit
  | 0x60 => some 24  -- net_rx_time: i + 5 x I
  | 0x61 => some 24  -- net_tx_time
  | 0x62 => some 28  -- named_event: 20s + I + I
  | 0x99 => some 4   -- user_0
  | _ => none

/-- The observable outcome of `EventFrame.__init__`.  `evsize` is `self.event.size`
and `success` the flag read by `parse_events`.  Failure paths (`none`): the
header slice is shorter than 5 bytes (`struct.unpack` raises struct.error),
the event id is missing from the table or maps to `None` (EventError), or the
payload slice `data[5:][:size]` is shorter than the event's struct size
(struct.error).  When none of these raise, the constructor finishes with
`self.event_frame_size = self.hdrsize + self.event.size` and
`self.success = True` as its final assignments.  (String-field UTF-8
conversion failures are not modelled; the events used in the concrete traces
below have no string fields.) -/
structure EventFrameR where
  evsize : Nat
  event_frame_size : Nat
  success : Bool
  deriving Repr, DecidableEq

def buildEventFrame (data : List Nat) : Option EventFrameR :=
  if data.length < hdrSize then none
  else
    match eventSize (data.getD 4 0) with
    | none => none
    | some sz =>
      if data.length < hdrSize + sz then none
      else some { evsize := sz, event_frame_size := hdrSize + sz, success := true }

/-- The decode attempt `EventFrame(self.data[test_start:], ...)` made by
`sync_start`: returns the decoded frame's `event.size` or `none` when the
constructor raises. -/
def tryEventFrame (data : List Nat) : Option Nat :=
  (buildEventFrame data).map (fun ef => ef.evsize)

/-- The chaining part of `TraceParser.sync_start`: starting at byte offset
`testStart`, try `k` consecutive frame decodes, each success advancing by
`frame.event.size + hdr_size`; any failure aborts the chain.  `tf` abstracts
the decode attempt. -/
def syncChain (tf : List Nat → Option Nat) (data : List Nat) : Nat → Nat → Bool
  | 0, _ => true
  | k + 1, testStart =>
    match tf (data.drop testStart) with
    | some sz => syncChain tf data k (testStart + sz + hdrSize)
    | none => false

/-- The outer candidate scan of `sync_start`: for each `idx` (while
`idx < len(self.data)`, hence `budget` starts at `data.length`) run the chain
from `idx`; accept `idx` when `sync_count` reaches 15, otherwise advance
`idx` by one byte with the chain counter reset (`idx += 1; test_start = idx;
sync_count = 0`).  Returning `none` models raising TraceParserError. -/
def syncScan (tf : List Nat → Option Nat) (data : List Nat) : Nat → Nat → Option Nat
  | _, 0 => none
  | idx, budget + 1 =>
    if syncChain tf data 15 idx then some idx
    else syncScan tf data (idx + 1) budget

def syncStart (tf : List Nat → Option Nat) (data : List Nat) : Option Nat :=
  syncScan tf data 0 data.length

lemma syncScan_some_iff (tf : List Nat → Option Nat) (data : List Nat) :
    ∀ (budget idx i : Nat),
      syncScan tf data idx budget = some i ↔
        (idx ≤ i ∧ i < idx + budget ∧ syncChain tf data 15 i = true ∧
          ∀ j, idx ≤ j → j < i → syncChain tf data 15 j = false) := by
  intro budget
  induction budget with
  | zero =>
    intro idx i
    rw [syncScan]
    constructor
    · intro h; exact absurd h (by simp)
    · rintro ⟨h1, h2, -, -⟩; omega
  | succ b ihb =>
    intro idx i
    rw [syncScan]
    cases hchain : syncChain tf data 15 idx with
    | true =>
      rw [if_pos rfl]
      constructor
      · intro h
        obtain rfl : idx = i := Option.some.inj h
        exact ⟨le_refl idx, by omega, hchain, fun j hj1 hj2 => absurd hj2 (by omega)⟩
      · rintro ⟨h1, h2, h3, h4⟩
        have hi : i = idx := by
          by_contra hne
          have := h4 idx (le_refl idx) (by omega)
          rw [hchain] at this
          exact absurd this (by simp)
        rw [hi]
    | false =>
      rw [if_neg (by simp), ihb (idx + 1) i]
      constructor
      · rintro ⟨h1, h2, h3, h4⟩
        refine ⟨by omega, by omega, h3, fun j hj1 hj2 => ?_⟩
        by_cases hj : j = idx
        · rw [hj]; exact hchain
        · exact h4 j (by omega) hj2
      · rintro ⟨h1, h2, h3, h4⟩
        have hne : ¬(i = idx) := by
          intro h
          rw [h, hchain] at h3
          exact absurd h3 (by simp)
        exact ⟨by omega, by omega, h3, fun j hj1 hj2 => h4 j (by omega) hj2⟩

lemma syncScan_none_iff (tf : List Nat → Option Nat) (data : List Nat) :
    ∀ (budget idx : Nat),
      syncScan tf data idx budget = none ↔
        ∀ j, idx ≤ j → j < idx + budget → syncChain tf data 15 j = false := by
  intro budget
  induction budget with
  | zero =>
    intro idx
    rw [syncScan]
    constructor
    · intro _ j hj1 hj2; omega
    · intro _; rfl
  | succ b ihb =>
    intro idx
    rw [syncScan]
    cases hchain : syncChain tf data 15 idx with
    | true =>
      rw [if_pos rfl]
      constructor
      · intro h; exact absurd h (by simp)
      · intro h
        have := h idx (le_refl idx) (by omega)
        rw [hchain] at this
        exact absurd this (by simp)
    | false =>
      rw [if_neg (by simp), ihb (idx + 1)]
      constructor
      · intro h j hj1 hj2
        by_cases hj : j = idx
        · rw [hj]; exact hchain
        · exact h j (by omega) (by omega)
      · intro h j hj1 hj2
        exact h j (by omega) (by omega)

/-- A structurally valid `idle` event frame: timestamp 0, event id 0x1E,
empty payload (fmt None, size 0), total 5 bytes. -/
def idleFrame : List Nat := [0, 0, 0, 0, 0x1E]

/-- Capture buffer with 3 undecodable leading garbage bytes (every decode
attempt at offsets 0, 1 and 2 reads event id 0, which is not in the table)
followed by 15 well-formed consecutive idle records. -/
def demoTrace : List Nat := [255, 255, 255] ++ (List.replicate 15 idleFrame).flatten

/-- C8: `sync_start` accepts an offset exactly when 15 consecutive frame
decodes chain from it and every smaller offset fails its chain (each failure
advances the candidate by one byte with the counter reset); on the buffer
with 3 garbage bytes and 15 good records it finds offset 3; when no offset
in the buffer yields a 15-decode run it raises TraceParserError (`none`). -/
theorem trace_sync_start_c8 :
    (∀ (tf : List Nat → Option Nat) (data : List Nat) (i : Nat),
      syncStart tf data = some i ↔
        (i < data.length ∧ syncChain tf data 15 i = true ∧
          ∀ j, j < i → syncChain tf data 15 j = false)) ∧
    (∀ (tf : List Nat → Option Nat) (data : List Nat),
      syncStart tf data = none ↔
        ∀ j, j < data.length → syncChain tf data 15 j = false) ∧
    syncStart tryEventFrame demoTrace = some 3 ∧
    syncStart tryEventFrame (List.replicate 30 0) = none := by
  refine ⟨?_, ?_, by decide, by decide⟩
  · intro tf data i
    rw [syncStart, syncScan_some_iff]
    constructor
    · rintro ⟨h1, h2, h3, h4⟩
      exact ⟨by omega, h3, fun j hj => h4 j (by omega) hj⟩
    · rintro ⟨h1, h2, h3⟩
      exact ⟨by omega, by omega, h2, fun j hj1 hj2 => h3 j hj2⟩
  · intro tf data
    rw [syncStart, syncScan_none_iff]
    constructor
    · intro h j hj
      exact h j (by omega) (by omega)
    · intro h j hj1 hj2
      exact h j (by omega)

/-- C10: whenever `EventFrame.__init__` returns normally, the success flag is
true and `event_frame_size` is the 5-byte header size plus the decoded
variant's size; every decode failure surfaces as an exception (`none`), never
as a constructed frame with `success == False`, so the `if not ev.success`
branch of `TraceParser.parse_events` cannot be taken. -/
theorem trace_event_success_c10 (data : List Nat) (ef : EventFrameR)
    (h : buildEventFrame data = some ef) :
    ef.success = true ∧ ef.event_frame_size = 5 + ef.evsize := by
  unfold buildEventFrame at h
  by_cases h5 : data.length < hdrSize
  · rw [if_pos h5] at h; exact absurd h (by simp)
  · rw [if_neg h5] at h
    cases hm : eventSize (data.getD 4 0) with
    | none => rw [hm] at h; exact absurd h (by simp)
    | some sz =>
      rw [hm] at h
      dsimp only at h
      by_cases hsz : data.length < hdrSize + sz
      · rw [if_pos hsz] at h; exact absurd h (by simp)
      · rw [if_neg hsz] at h
        have he := Option.some.inj h
        rw [← he]
        exact ⟨rfl, rfl⟩

theorem trace_event_success_c10_witness :
    (⟨0, 5, true⟩ : EventFrameR).success = true ∧
    (⟨0, 5, true⟩ : EventFrameR).event_frame_size = 5 + (⟨0, 5, true⟩ : EventFrameR).evsize :=
  trace_event_success_c10 idleFrame ⟨0, 5, true⟩ (by decide)

end Trace

namespace Cli

/- src/protorpc/protorpc/cli/common_opts.py, cli_init -/

/-- Path resolution in `cli_init`: the explicit `--callsets` option takes
precedence; otherwise the environment variable (the code reads
`CALLSET_YAML`; its error message names `CALLSETS_YAML`). -/
def cliResolveCallsets (optCallsets envCallsetYaml : Option String) : Option String :=
  match optCallsets with
  | some p => some p
  | none => envCallsetYaml

/-- The registry-loading part of `cli_init`: `Except.error 1` models
`sys.exit(1)` (no resolvable path, or the resolved path does not exist);
`Except.ok arg` records the argument that is passed to the YAML loader.  The
code checks `Path(callsets_yaml).exists()` on the resolved path but then
calls `load_callset_yaml(params.callsets)` -- the explicit option value, not
the resolved path -- so `arg = optCallsets` even when the path came from the
environment variable. -/
def cliInitLoaderArg (optCallsets envCallsetYaml : Option String)
    (pathExists : String → Bool) : Except Nat (Option String) :=
  match cliResolveCallsets optCallsets envCallsetYaml with
  | none => .error 1
  | some p => if pathExists p then .ok optCallsets else .error 1

/-- C9 fails on the code: with no explicit option and the environment
variable supplying an existing registry path, `cli_init` exits with code 1
correctly in the unusable cases, but on the success path it passes
`params.callsets` (None) to the YAML loader instead of the
environment-resolved path, so the registry is never loaded from that path
(`open(None)` raises).  With the explicit option the loader does receive the
resolved path. -/
theorem cli_init_env_path_c9_bug :
    cliInitLoaderArg none (some "callsets.yaml") (fun _ => true) = .ok none ∧
    (Except.ok (none : Option String) : Except Nat (Option String)) ≠
      .ok (some "callsets.yaml") ∧
    cliInitLoaderArg (some "a.yaml") none (fun _ => true) = .ok (some "a.yaml") ∧
    cliInitLoaderArg none none (fun _ => true) = .error 1 ∧
    cliInitLoaderArg none (some "callsets.yaml") (fun _ => false) = .error 1 := by
  refine ⟨rfl, by simp, rfl, rfl, rfl⟩

end Cli

end ZephyrPython
